import Mathlib

/-!
Shallow embedding of `src/src/Editor.js` (a MathJax math-input editor).

The editor state is a buffer of characters (`value`) and an integer cursor
(`cursor`), where `-1` is a sentinel meaning "before the first character".
JavaScript string indexing `value[i]` yields `undefined` out of range, which
we model as `Option Char`; `String.prototype.slice` clamps and interprets
negative arguments relative to the string length, which we model explicitly.
-/

namespace MathjaxEditor

/-- Character of the buffer at a nonnegative index; `none` models the
JavaScript `undefined` produced by an out-of-range string index. -/
def charAtN (v : List Char) (n : Nat) : Option Char := v[n]?

/-- Character of the buffer at a JavaScript (possibly negative) index. -/
def charAt (v : List Char) (i : Int) : Option Char :=
  if i < 0 then none else charAtN v i.toNat

/-- JavaScript `value.slice(0, e)`: a negative `e` counts from the end of the
string, and the result is clamped to the string. -/
def jsSliceEnd (v : List Char) (e : Int) : List Char :=
  v.take (if e < 0 then ((v.length : Int) + e).toNat else e.toNat)

/-- JavaScript `value.slice(s)`: a negative `s` counts from the end of the
string, and the result is clamped to the string. -/
def jsSliceFrom (v : List Char) (s : Int) : List Char :=
  v.drop (if s < 0 then ((v.length : Int) + s).toNat else s.toNat)

/-- The backward scan `let i = n; while (i--) { if (value[i] === '\\') break }`
of `Editor.updateCursor` / `Editor.findCommandAt`: the greatest index strictly
below `n` holding a backslash, or `none` when the loop runs past index 0. -/
def bsSearchLT (v : List Char) : Nat → Option Nat
  | 0 => none
  | n + 1 => if charAtN v n = some '\\' then some n else bsSearchLT v n

/-- Loop body of `Editor.updateCursor`'s rightward forward scan. The `fuel`
argument counts the remaining iterations allowed by the loop condition
`i < length`; it is instantiated with `length - p` by `braceSearch`, so the
body runs exactly while the scanned index is below the buffer length. -/
def braceScanLoop (v : List Char) : Nat → Nat → Option Nat
  | _, 0 => none
  | p, fuel + 1 =>
    if charAtN v p = some '{' then some p else braceScanLoop v (p + 1) fuel

/-- The forward scan of `Editor.updateCursor`'s rightward branch, from the
index first examined by the loop body: the least index `≥ p` holding `'{'`. -/
def braceSearch (v : List Char) (p : Nat) : Option Nat :=
  braceScanLoop v p (v.length - p)

/-- The loop condition of `Editor.findCommandAt`'s forward scan: the character
at `k` is `'}'` and the character after it is not `'{'`. -/
def closesCommand (v : List Char) (k : Nat) : Prop :=
  charAtN v k = some '}' ∧ charAtN v (k + 1) ≠ some '{'

instance (v : List Char) (k : Nat) : Decidable (closesCommand v k) :=
  inferInstanceAs (Decidable (_ ∧ _))

/-- Loop body of `Editor.findCommandAt`'s forward scan, with `fuel` counting
the iterations allowed by the loop condition `i < length`, as in
`braceScanLoop`. -/
def endScanLoop (v : List Char) : Nat → Nat → Option Nat
  | _, 0 => none
  | p, fuel + 1 =>
    if closesCommand v p then some p else endScanLoop v (p + 1) fuel

/-- The forward scan of `Editor.findCommandAt`, from the index first examined
by the loop body: the least index `≥ p` holding `'}'` whose successor does not
hold `'{'`. -/
def endScan (v : List Char) (p : Nat) : Option Nat :=
  endScanLoop v p (v.length - p)

/-- The coordinates object returned by `Editor.findCommandAt`; the source
field `end` is a Lean keyword, so it is rendered `endPos`. `start` is `none`
for the JavaScript `null` left when the backward scan finds no backslash. -/
structure Coordinates where
  start : Option Nat
  endPos : Nat
deriving DecidableEq, Repr

/-- `Editor.findCommandAt(position)`.

The backward scan starts at `i = position + 1` and `while (i--)` examines
indices `position, position - 1, …, 0`, so `start` is the greatest backslash
index `≤ position` (`none` when absent).

The forward scan starts at `i = position - 1` and `while (i++ < length)`
examines indices `position, position + 1, …, length`; on success `end` is the
index found, and when the loop falls through, `end` keeps the final value of
`i`, which is `max (length + 1) position`. -/
def findCommandAt (v : List Char) (position : Nat) : Coordinates :=
  { start := bsSearchLT v (position + 1)
    endPos :=
      match endScan v position with
      | some j => j
      | none => max (v.length + 1) position }

/-- The editor's mutable state: `this.value` and `this.cursor`. -/
structure EditorState where
  value : List Char
  cursor : Int
deriving DecidableEq, Repr

/-- Modelled from the spec: `insertBetween` is imported from `src/utils`,
which is not among the sources; per the spec (§4.3) the text is spliced into
the buffer at the given index, i.e. `take i ++ text ++ drop i`. -/
def insertBetween (v : List Char) (i : Int) (s : List Char) : List Char :=
  v.take i.toNat ++ s ++ v.drop i.toNat

/-- `Editor.insert(value)`: at the sentinel cursor `-1` the text is prepended;
otherwise it is spliced in at the cursor. Either way the cursor advances by
the length of the inserted text. -/
def insert (st : EditorState) (s : List Char) : EditorState :=
  if st.cursor = -1 then
    { value := s ++ st.value, cursor := st.cursor + s.length }
  else
    { value := insertBetween st.value st.cursor s
      cursor := st.cursor + s.length }

/-- `Editor.insertCommand(command, blockCount)`: inserts `command ++ "{"` as
ordinary text, then splices `"}" ++ "{}" * (blockCount - 1)` at the advanced
cursor without moving the cursor further. -/
def insertCommand (st : EditorState) (command : List Char) (blockCount : Nat) :
    EditorState :=
  let st1 := insert st (command ++ ['{'])
  let blocks := '}' :: (List.replicate (blockCount - 1) ['{', '}']).flatten
  { value := insertBetween st1.value st1.cursor blocks, cursor := st1.cursor }

/-- The intermediate `next` of `Editor.updateCursor`'s rightward branch: when
the character at the pre-move cursor is a backslash, the loop scans indices
`next + 1, …, length` for `'{'`; on break `next` becomes one past the brace,
and on fall-through `i` ends at `max next length + 1`, so `next` becomes
`max next length + 2`. Otherwise `next` is left as `cursor + amount`. -/
def rightLanding (v : List Char) (cursor next : Int) : Int :=
  if charAt v cursor = some '\\' then
    match braceSearch v (next.toNat + 1) with
    | some j => (j : Int) + 1
    | none => (max next.toNat v.length : Int) + 2
  else next

/-- `Editor.updateCursor(amount)`: computes the next cursor value. Leftward,
landing on `'{'` rescans backward for the opening backslash (yielding `-1`
when there is none). Rightward, a backslash at the pre-move cursor skips the
whole command name, and a final landing on `'{'` advances one further. -/
def updateCursor (v : List Char) (cursor amount : Int) : Int :=
  let next := cursor + amount
  if amount < 0 then
    if charAt v next = some '{' then
      match bsSearchLT v next.toNat with
      | some j => (j : Int)
      | none => -1
    else next
  else if amount > 0 then
    let next1 := rightLanding v cursor next
    if charAt v next1 = some '{' then next1 + 1 else next1
  else next

/-- `Editor.erase()`: when the character before the cursor is a brace, the
whole located command span is removed (`slice(0, start)` with a `null` start
coercing to `0`); otherwise one character is removed. The new cursor is the
length of the retained prefix. -/
def erase (st : EditorState) : EditorState :=
  let current := st.cursor
  let previous := current - 1
  let v := st.value
  let ba :=
    if charAt v previous = some '{' ∨ charAt v previous = some '}' then
      let coordinates := findCommandAt v current.toNat
      (jsSliceEnd v (match coordinates.start with
          | some s => (s : Int)
          | none => 0),
        jsSliceFrom v ((coordinates.endPos : Int) + 1))
    else
      (jsSliceEnd v (current - 1), jsSliceFrom v current)
  { value := ba.1 ++ ba.2, cursor := (ba.1.length : Int) }

def KEY_BACKSPACE : Int := 8
def KEY_LEFT : Int := 37
def KEY_RIGHT : Int := 39

/-- `Editor.handleInput(which, char)`: dispatches on the key code; guarded
cursor moves, unguarded erase, and otherwise (after a diagnostic that does
not touch the state) insertion of the typed character when present. -/
def handleInput (which : Option Int) (char : Option Char) (st : EditorState) :
    EditorState :=
  match which with
  | some w =>
    if w = KEY_LEFT then
      if st.cursor > 0 then
        { st with cursor := updateCursor st.value st.cursor (-1) }
      else st
    else if w = KEY_RIGHT then
      if st.cursor < (st.value.length : Int) then
        { st with cursor := updateCursor st.value st.cursor 1 }
      else st
    else if w = KEY_BACKSPACE then erase st
    else
      match char with
      | none => st
      | some c => insert st [c]
  | none =>
    match char with
    | none => st
    | some c => insert st [c]

/-! ### Basic facts about indexing and the scan loops -/

theorem charAtN_some_lt {v : List Char} {n : Nat} {ch : Char}
    (h : charAtN v n = some ch) : n < v.length := by
  by_contra hn
  rw [charAtN, List.getElem?_eq_none (by omega)] at h
  exact Option.noConfusion h

theorem charAt_some_bounds {v : List Char} {i : Int} {ch : Char}
    (h : charAt v i = some ch) : 0 ≤ i ∧ i < (v.length : Int) := by
  rw [charAt] at h
  by_cases hi : i < 0
  · rw [if_pos hi] at h
    exact Option.noConfusion h
  · rw [if_neg hi] at h
    have := charAtN_some_lt h
    omega

theorem bsSearchLT_some (v : List Char) :
    ∀ n j, bsSearchLT v n = some j → j < n ∧ charAtN v j = some '\\' := by
  intro n
  induction n with
  | zero => intro j h; exact Option.noConfusion h
  | succ n ih =>
    intro j h
    rw [bsSearchLT] at h
    by_cases hc : charAtN v n = some '\\'
    · rw [if_pos hc] at h
      cases h
      exact ⟨Nat.lt_succ_self n, hc⟩
    · rw [if_neg hc] at h
      have := ih j h
      exact ⟨by omega, this.2⟩

theorem bsSearchLT_eq_none (v : List Char) :
    ∀ n, (∀ j, j < n → charAtN v j ≠ some '\\') → bsSearchLT v n = none := by
  intro n
  induction n with
  | zero => intro _; rfl
  | succ n ih =>
    intro h
    rw [bsSearchLT, if_neg (h n (by omega))]
    exact ih fun j hj => h j (by omega)

theorem braceScanLoop_some (v : List Char) :
    ∀ fuel p j, braceScanLoop v p fuel = some j →
      p ≤ j ∧ j < v.length ∧ charAtN v j = some '{' := by
  intro fuel
  induction fuel with
  | zero => intro p j h; exact Option.noConfusion h
  | succ fuel ih =>
    intro p j h
    rw [braceScanLoop] at h
    by_cases hc : charAtN v p = some '{'
    · rw [if_pos hc] at h
      cases h
      exact ⟨Nat.le_refl p, charAtN_some_lt hc, hc⟩
    · rw [if_neg hc] at h
      have := ih (p + 1) j h
      exact ⟨by omega, this.2⟩

theorem braceSearch_some (v : List Char) (p j : Nat)
    (h : braceSearch v p = some j) :
    p ≤ j ∧ j < v.length ∧ charAtN v j = some '{' :=
  braceScanLoop_some v _ p j h

theorem endScanLoop_eq_some (v : List Char) :
    ∀ fuel p j, p ≤ j → j < p + fuel → closesCommand v j →
      (∀ k, k < j → p ≤ k → ¬ closesCommand v k) →
      endScanLoop v p fuel = some j := by
  intro fuel
  induction fuel with
  | zero => intro p j hpj hfuel _ _; omega
  | succ fuel ih =>
    intro p j hpj hfuel hj hmin
    rw [endScanLoop]
    by_cases hpc : p = j
    · subst hpc
      rw [if_pos hj]
    · rw [if_neg (by exact fun hc => hmin p (by omega) (Nat.le_refl p) hc)]
      exact ih (p + 1) j (by omega) (by omega) hj
        fun k hk hpk => hmin k hk (by omega)

theorem endScan_eq_some (v : List Char) (p j : Nat) (hpj : p ≤ j)
    (hj : closesCommand v j)
    (hmin : ∀ k, k < j → p ≤ k → ¬ closesCommand v k) :
    endScan v p = some j := by
  have hjlt := charAtN_some_lt hj.1
  exact endScanLoop_eq_some v (v.length - p) p j hpj (by omega) hj hmin

theorem endScanLoop_eq_none (v : List Char) :
    ∀ fuel p, (∀ k, k < v.length → p ≤ k → ¬ closesCommand v k) →
      endScanLoop v p fuel = none := by
  intro fuel
  induction fuel with
  | zero => intro p _; rfl
  | succ fuel ih =>
    intro p h
    rw [endScanLoop]
    by_cases hc : closesCommand v p
    · exact absurd hc (h p (charAtN_some_lt hc.1) (Nat.le_refl p))
    · rw [if_neg hc]
      exact ih (p + 1) fun k hk hpk => h k hk (by omega)

theorem endScan_eq_none (v : List Char) (p : Nat)
    (h : ∀ k, k < v.length → p ≤ k → ¬ closesCommand v k) :
    endScan v p = none :=
  endScanLoop_eq_none v _ p h

/-! ### Cursor bounds of the individual operations -/

theorem updateCursor_neg_bounds (v : List Char) (c : Int)
    (h1 : 0 < c) (h2 : c ≤ (v.length : Int)) :
    -1 ≤ updateCursor v c (-1) ∧ updateCursor v c (-1) ≤ (v.length : Int) := by
  rw [updateCursor]
  rw [if_pos (by omega)]
  by_cases hb : charAt v (c + -1) = some '{'
  · rw [if_pos hb]
    cases hs : bsSearchLT v (c + -1).toNat with
    | none => simp; omega
    | some j =>
      have hj := bsSearchLT_some v _ j hs
      have := charAtN_some_lt hj.2
      simp
      omega
  · rw [if_neg hb]
    omega

theorem rightLanding_bounds (v : List Char) (c : Int)
    (h1 : -1 ≤ c) (h2 : c < (v.length : Int)) :
    0 ≤ rightLanding v c (c + 1) ∧
      rightLanding v c (c + 1) ≤ (v.length : Int) + 2 := by
  rw [rightLanding]
  by_cases hbs : charAt v c = some '\\'
  · rw [if_pos hbs]
    cases hbr : braceSearch v ((c + 1).toNat + 1) with
    | none =>
      simp
      omega
    | some j =>
      have hj := braceSearch_some v _ j hbr
      simp
      omega
  · rw [if_neg hbs]
    omega

theorem updateCursor_pos_bounds (v : List Char) (c : Int)
    (h1 : -1 ≤ c) (h2 : c < (v.length : Int)) :
    0 ≤ updateCursor v c 1 ∧ updateCursor v c 1 ≤ (v.length : Int) + 2 := by
  rw [updateCursor]
  rw [if_neg (by omega), if_pos (by omega)]
  have hland := rightLanding_bounds v c h1 h2
  by_cases hbrace : charAt v (rightLanding v c (c + 1)) = some '{'
  · have := charAt_some_bounds hbrace
    simp only [hbrace, if_pos]
    omega
  · simp only [if_neg hbrace]
    omega

theorem erase_bounds (st : EditorState) :
    0 ≤ (erase st).cursor ∧ (erase st).cursor ≤ ((erase st).value.length : Int) := by
  rw [erase]
  split
  all_goals simp [List.length_append]

theorem insert_bounds (st : EditorState) (s : List Char)
    (h1 : -1 ≤ st.cursor) (h2 : st.cursor ≤ (st.value.length : Int)) :
    -1 ≤ (insert st s).cursor ∧
      (insert st s).cursor ≤ ((insert st s).value.length : Int) := by
  rw [insert]
  by_cases hc : st.cursor = -1
  · rw [if_pos hc]
    simp [hc, List.length_append]
    omega
  · rw [if_neg hc]
    simp [insertBetween, List.length_append, List.length_take, List.length_drop]
    omega

theorem insertCommand_bounds (st : EditorState) (cmd : List Char) (n : Nat)
    (h1 : -1 ≤ st.cursor) (h2 : st.cursor ≤ (st.value.length : Int)) :
    -1 ≤ (insertCommand st cmd n).cursor ∧
      (insertCommand st cmd n).cursor ≤
        ((insertCommand st cmd n).value.length : Int) := by
  have hins := insert_bounds st (cmd ++ ['{']) h1 h2
  rw [insertCommand]
  simp only [insertBetween, List.length_append, List.length_take, List.length_drop]
  simp
  omega

/-! ### Branch equations for the controller dispatch -/

theorem handleInput_left (ch : Option Char) (st : EditorState) :
    handleInput (some KEY_LEFT) ch st =
      if st.cursor > 0 then
        { st with cursor := updateCursor st.value st.cursor (-1) }
      else st := by
  simp only [handleInput]
  simp

theorem handleInput_right (ch : Option Char) (st : EditorState) :
    handleInput (some KEY_RIGHT) ch st =
      if st.cursor < (st.value.length : Int) then
        { st with cursor := updateCursor st.value st.cursor 1 }
      else st := by
  simp only [handleInput]
  rw [if_neg (by decide)]
  simp

theorem handleInput_backspace (ch : Option Char) (st : EditorState) :
    handleInput (some KEY_BACKSPACE) ch st = erase st := by
  simp only [handleInput]
  rw [if_neg (by decide), if_neg (by decide)]
  simp

theorem handleInput_unrecognized (w : Int) (st : EditorState)
    (hL : w ≠ KEY_LEFT) (hR : w ≠ KEY_RIGHT) (hB : w ≠ KEY_BACKSPACE) :
    handleInput (some w) none st = st := by
  simp only [handleInput]
  rw [if_neg hL, if_neg hR, if_neg hB]

theorem handleInput_typed (w : Int) (c : Char) (st : EditorState)
    (hL : w ≠ KEY_LEFT) (hR : w ≠ KEY_RIGHT) (hB : w ≠ KEY_BACKSPACE) :
    handleInput (some w) (some c) st = insert st [c] := by
  simp only [handleInput]
  rw [if_neg hL, if_neg hR, if_neg hB]

theorem handleInput_nokey (c : Char) (st : EditorState) :
    handleInput none (some c) st = insert st [c] := rfl

theorem handleInput_noop (st : EditorState) :
    handleInput none none st = st := rfl

/-! ### Claim C1 -/

/-- C1, counterexample. The claim "after every public operation the cursor is
the sentinel `-1` or in `[0, length(buffer)]` and never strictly inside a
command name" is false on the code. First conjunct: on buffer `"\a"` with
cursor `0`, a move right (key code 39) sets the cursor to `4`, which exceeds
the buffer length `2`. Second conjunct: inserting a backslash into buffer
`"x\x7b"` at cursor `0` leaves the cursor at `1`, strictly between the
backslash at index `0` and the opening brace of its argument at index `2`,
i.e. strictly inside the command name. -/
theorem C1_counterexample :
    ((handleInput (some 39) none ⟨['\\', 'a'], 0⟩).cursor = 4 ∧
      ¬((handleInput (some 39) none ⟨['\\', 'a'], 0⟩).cursor ≤
        ((handleInput (some 39) none ⟨['\\', 'a'], 0⟩).value.length : Int))) ∧
    (insert ⟨['x', '{'], 0⟩ ['\\'] = ⟨['\\', 'x', '{'], 1⟩ ∧
      charAtN ['\\', 'x', '{'] 0 = some '\\' ∧
      charAtN ['\\', 'x', '{'] 2 = some '{' ∧
      (0 : Int) < 1 ∧ (1 : Int) < 2) := by
  decide

/-- C1, amended: after every public operation (move left, move right, insert,
insertCommand, erase) applied to a state whose cursor lies in
`[-1, length(buffer)]`, the new cursor is at least `-1` and at most
`length(new buffer) + 2`; for every operation other than move right it is at
most `length(new buffer)`. (The original claim's range `[-1, length]` fails
for move right, and its "never strictly inside a command name" clause fails
as well, per the counterexample.) -/
theorem C1_theorem (st : EditorState) (h1 : -1 ≤ st.cursor)
    (h2 : st.cursor ≤ (st.value.length : Int)) :
    (∀ w ch, -1 ≤ (handleInput w ch st).cursor ∧
      (handleInput w ch st).cursor ≤
        ((handleInput w ch st).value.length : Int) + 2 ∧
      (w ≠ some KEY_RIGHT →
        (handleInput w ch st).cursor ≤
          ((handleInput w ch st).value.length : Int))) ∧
    (∀ cmd n, -1 ≤ (insertCommand st cmd n).cursor ∧
      (insertCommand st cmd n).cursor ≤
        ((insertCommand st cmd n).value.length : Int)) := by
  constructor
  · intro w ch
    cases w with
    | none =>
      cases ch with
      | none =>
        rw [handleInput_noop]
        exact ⟨h1, by omega, fun _ => h2⟩
      | some c =>
        rw [handleInput_nokey]
        have := insert_bounds st [c] h1 h2
        exact ⟨this.1, by omega, fun _ => this.2⟩
    | some w =>
      by_cases hL : w = KEY_LEFT
      · subst hL
        rw [handleInput_left]
        by_cases hpos : st.cursor > 0
        · rw [if_pos hpos]
          have h3 := updateCursor_neg_bounds st.value st.cursor hpos h2
          refine ⟨?_, ?_, fun _ => ?_⟩
          · show -1 ≤ updateCursor st.value st.cursor (-1)
            omega
          · show updateCursor st.value st.cursor (-1) ≤ (st.value.length : Int) + 2
            omega
          · show updateCursor st.value st.cursor (-1) ≤ (st.value.length : Int)
            exact h3.2
        · rw [if_neg hpos]
          exact ⟨h1, by omega, fun _ => h2⟩
      · by_cases hR : w = KEY_RIGHT
        · subst hR
          rw [handleInput_right]
          by_cases hlt : st.cursor < (st.value.length : Int)
          · rw [if_pos hlt]
            have h3 := updateCursor_pos_bounds st.value st.cursor h1 hlt
            refine ⟨?_, ?_, fun hne => absurd rfl hne⟩
            · show -1 ≤ updateCursor st.value st.cursor 1
              omega
            · show updateCursor st.value st.cursor 1 ≤ (st.value.length : Int) + 2
              omega
          · rw [if_neg hlt]
            exact ⟨h1, by omega, fun _ => h2⟩
        · by_cases hB : w = KEY_BACKSPACE
          · subst hB
            rw [handleInput_backspace]
            have := erase_bounds st
            exact ⟨by omega, by omega, fun _ => this.2⟩
          · cases ch with
            | none =>
              rw [handleInput_unrecognized w st hL hR hB]
              exact ⟨h1, by omega, fun _ => h2⟩
            | some c =>
              rw [handleInput_typed w c st hL hR hB]
              have := insert_bounds st [c] h1 h2
              exact ⟨this.1, by omega, fun _ => this.2⟩
  · intro cmd n
    exact insertCommand_bounds st cmd n h1 h2

/-- C1, witness: the amended bound instantiated on buffer `"a"`, cursor `1`,
for a left-arrow key event. -/
theorem C1_witness :
    -1 ≤ (handleInput (some 37) none ⟨['a'], 1⟩).cursor ∧
      (handleInput (some 37) none ⟨['a'], 1⟩).cursor ≤
        ((handleInput (some 37) none ⟨['a'], 1⟩).value.length : Int) + 2 ∧
      (some (37 : Int) ≠ some KEY_RIGHT →
        (handleInput (some 37) none ⟨['a'], 1⟩).cursor ≤
          ((handleInput (some 37) none ⟨['a'], 1⟩).value.length : Int)) :=
  ( C1_theorem ⟨['a'], 1⟩ (by decide) (by decide)).1 (some 37) none

/-! ### Claim C2 -/

/-- C2: evaluation of `erase` at the failing input, buffer `"ab"` with cursor
`0`. The claim (and the `erase` doc comment, which says it erases the
character before the cursor) requires a no-op, but `value.slice(0, -1)`
interprets the negative end relative to the string length, so the code
produces buffer `"aab"` with cursor `1`: the buffer grows instead of staying
unchanged. -/
theorem C2_code_eval :
    erase ⟨['a', 'b'], 0⟩ = ⟨['a', 'a', 'b'], 1⟩ ∧
      erase ⟨['a', 'b'], 0⟩ ≠ ⟨['a', 'b'], 0⟩ := by
  decide

/-! ### Claim C3 -/

/-- C3, counterexample. On buffer `"}"` with position `1`, index `0` equals
`position - 1`, holds `'}'`, and its successor is not `'{'`, so the claim
says `end = 0`; but the forward scan first examines index `position`, never
`position - 1`, and the code yields `end = 2`. -/
theorem C3_counterexample :
    charAtN ['}'] 0 = some '}' ∧ charAtN ['}'] 1 ≠ some '{' ∧
      (findCommandAt ['}'] 1).endPos = 2 ∧ (findCommandAt ['}'] 1).endPos ≠ 0 := by
  decide

/-- C3, amended: the `end` field of `findCommandAt` is the first index
`i ≥ position` (not `position - 1`) such that `buffer[i]` is `'}'` and
`buffer[i + 1]` is not `'{'`; when no such index exists, `end` is the final
value of the loop counter, namely `max (length(buffer) + 1) position`. -/
theorem C3_theorem (v : List Char) (p : Nat) :
    (∀ j, p ≤ j → closesCommand v j →
      (∀ k, k < j → p ≤ k → ¬ closesCommand v k) →
      (findCommandAt v p).endPos = j) ∧
    ((∀ k, k < v.length → p ≤ k → ¬ closesCommand v k) →
      (findCommandAt v p).endPos = max (v.length + 1) p) := by
  constructor
  · intro j hpj hj hmin
    rw [findCommandAt, endScan_eq_some v p j hpj hj hmin]
  · intro h
    rw [findCommandAt, endScan_eq_none v p h]

/-- C3, witness: on buffer `"\sqrt{2}"` at position `6`, the first index
`≥ 6` closing a command is `7`, and `findCommandAt` indeed reports `end = 7`. -/
theorem C3_witness :
    (findCommandAt ['\\', 's', 'q', 'r', 't', '{', '2', '}'] 6).endPos = 7 :=
  ( C3_theorem ['\\', 's', 'q', 'r', 't', '{', '2', '}'] 6).1 7 (by decide)
    (by decide) (by decide)

/-! ### Slice helpers at nonnegative indices -/

theorem jsSliceEnd_natCast (v : List Char) (n : Nat) :
    jsSliceEnd v (n : Int) = v.take n := by
  rw [jsSliceEnd, if_neg (by omega)]
  rw [show ((n : Int)).toNat = n by omega]

theorem jsSliceFrom_natCast (v : List Char) (n : Nat) :
    jsSliceFrom v (n : Int) = v.drop n := by
  rw [jsSliceFrom, if_neg (by omega)]
  rw [show ((n : Int)).toNat = n by omega]

/-! ### Claim C4 -/

/-- C4: when the character immediately before the cursor is `'{'` or `'}'`
and the located command span has a start (a backslash at or before the
cursor), `erase` removes the whole span `[start, end]` in one step — the new
buffer is the prefix below `start` followed by the suffix above `end` — and
the new cursor is `start`, the length of the retained prefix. -/
theorem C4_theorem (v : List Char) (c : Int) (s : Nat)
    (hb : charAt v (c - 1) = some '{' ∨ charAt v (c - 1) = some '}')
    (hs : (findCommandAt v c.toNat).start = some s) :
    (erase ⟨v, c⟩).value =
      v.take s ++ v.drop ((findCommandAt v c.toNat).endPos + 1) ∧
    (erase ⟨v, c⟩).cursor = (s : Int) := by
  have hbs : charAtN v s = some '\\' := by
    have hx : bsSearchLT v (c.toNat + 1) = some s := hs
    exact (bsSearchLT_some v _ s hx).2
  have hslen : s < v.length := charAtN_some_lt hbs
  rw [erase]
  simp only [if_pos hb, hs]
  have he : jsSliceFrom v (((findCommandAt v c.toNat).endPos : Int) + 1) =
      v.drop ((findCommandAt v c.toNat).endPos + 1) := by
    rw [jsSliceFrom, if_neg (by omega)]
    rw [show (((findCommandAt v c.toNat).endPos : Int) + 1).toNat =
      (findCommandAt v c.toNat).endPos + 1 by omega]
  rw [jsSliceEnd_natCast, he]
  refine ⟨rfl, ?_⟩
  simp [List.length_take]
  omega

/-- C4, witness: on buffer `"\sqrt{2}"` with cursor `8` (the character before
the cursor being `'}'`), erase deletes the whole command: the result is the
empty buffer with cursor `0`. -/
theorem C4_witness :
    (erase ⟨['\\', 's', 'q', 'r', 't', '{', '2', '}'], 8⟩).value = [] ∧
      (erase ⟨['\\', 's', 'q', 'r', 't', '{', '2', '}'], 8⟩).cursor = 0 := by
  have h := C4_theorem ['\\', 's', 'q', 'r', 't', '{', '2', '}'] 8 0
    (by decide) (by decide)
  refine ⟨?_, h.2⟩
  rw [h.1]
  decide

/-! ### Claim C5 -/

/-- C5: for every string `s` and cursor `c` in the domain `[-1, length]`,
`insert` grows the buffer by exactly `length s` and advances the cursor by
`length s`; at the sentinel `-1` the text is prepended and the new cursor is
`length s - 1`. -/
theorem C5_theorem (v : List Char) (c : Int) (s : List Char)
    (h1 : -1 ≤ c) (h2 : c ≤ (v.length : Int)) :
    (insert ⟨v, c⟩ s).value.length = v.length + s.length ∧
    (insert ⟨v, c⟩ s).cursor = c + s.length ∧
    (c = -1 → (insert ⟨v, c⟩ s).value = s ++ v ∧
      (insert ⟨v, c⟩ s).cursor = (s.length : Int) - 1) := by
  rw [insert]
  by_cases hc : c = -1
  · rw [if_pos hc]
    subst hc
    refine ⟨by simp [List.length_append]; omega, by simp, fun _ => ⟨rfl, by simp; omega⟩⟩
  · rw [if_neg hc]
    refine ⟨?_, by simp, fun hx => absurd hx hc⟩
    simp [insertBetween, List.length_append, List.length_take, List.length_drop]
    omega

/-- C5, witness: inserting `"xy"` at the sentinel cursor on buffer `"a"`. -/
theorem C5_witness :
    (insert ⟨['a'], -1⟩ ['x', 'y']).value.length = 1 + 2 ∧
    (insert ⟨['a'], -1⟩ ['x', 'y']).cursor = -1 + 2 ∧
    ((-1 : Int) = -1 → (insert ⟨['a'], -1⟩ ['x', 'y']).value = ['x', 'y'] ++ ['a'] ∧
      (insert ⟨['a'], -1⟩ ['x', 'y']).cursor = (2 : Int) - 1) :=
  C5_theorem ['a'] (-1) ['x', 'y'] (by decide) (by decide)

/-! ### Claim C6 -/

/-- C6: for any in-range cursor, `insertCommand` produces the buffer with
`command`, its opening brace, the closing brace, and `blockCount - 1` further
empty blocks spliced in at the cursor, and leaves the cursor immediately
after the opening brace of the first block — the closing braces are appended
after the advanced cursor without moving it further. -/
theorem C6_theorem (v : List Char) (c : Int) (command : List Char)
    (blockCount : Nat) (h1 : 0 ≤ c) (h2 : c ≤ (v.length : Int)) :
    insertCommand ⟨v, c⟩ command blockCount =
      ⟨v.take c.toNat ++ command ++ '{' :: '}' ::
          ((List.replicate (blockCount - 1) ['{', '}']).flatten ++ v.drop c.toNat),
        c + command.length + 1⟩ := by
  simp only [insertCommand, insert]
  rw [if_neg (by omega : ¬(c = -1))]
  simp only [insertBetween, EditorState.mk.injEq]
  have htake : (List.take c.toNat v).length = c.toNat := by
    simp [List.length_take]
    omega
  refine ⟨?_, by simp only [List.length_append, List.length_cons,
    List.length_nil]; omega⟩
  have hsplit : List.take c.toNat v ++ (command ++ ['{']) ++ List.drop c.toNat v =
      (List.take c.toNat v ++ command ++ ['{']) ++ List.drop c.toNat v := by
    simp [List.append_assoc]
  rw [hsplit]
  have hlen : (c + ((command ++ ['{']).length : Int)).toNat =
      (List.take c.toNat v ++ command ++ ['{']).length := by
    simp only [List.length_append, List.length_cons, List.length_nil, htake]
    omega
  rw [hlen, List.take_left, List.drop_left]
  simp [List.append_assoc]

/-- C6, witness: `insertCommand("\sqrt", 1)` on the empty buffer with cursor
`0` yields buffer `"\sqrt{}"` and cursor `6`, immediately after the opening
brace of the single block. -/
theorem C6_witness :
    insertCommand ⟨[], 0⟩ ['\\', 's', 'q', 'r', 't'] 1 =
      ⟨['\\', 's', 'q', 'r', 't', '{', '}'], 6⟩ := by
  rw [C6_theorem [] 0 ['\\', 's', 'q', 'r', 't'] 1 (by decide) (by decide)]
  decide

/-! ### Claim C7 -/

/-- C7, counterexample. The cursor domain of the spec is `[-1, length]`, and
at the sentinel `c = -1` the insert/erase round trip fails: on the empty
buffer, inserting `'a'` at `-1` yields buffer `"a"`, cursor `0`, and the
subsequent erase (`slice(0, -1)` on a one-character string) leaves buffer
`"a"`, cursor `0` — not the original empty buffer with cursor `-1`. -/
theorem C7_counterexample :
    erase (insert ⟨[], -1⟩ ['a']) = ⟨['a'], 0⟩ ∧
      erase (insert ⟨[], -1⟩ ['a']) ≠ ⟨[], -1⟩ := by
  decide

/-- C7, amended: for every cursor `c` in `[0, length(buffer)]` (the sentinel
`-1` excluded) and every single character `ch` other than `'{'` and `'}'`,
inserting `ch` at `c` and then erasing restores exactly the original buffer
and cursor. -/
theorem C7_theorem (v : List Char) (c : Int) (ch : Char)
    (h1 : 0 ≤ c) (h2 : c ≤ (v.length : Int)) (h3 : ch ≠ '{') (h4 : ch ≠ '}') :
    erase (insert ⟨v, c⟩ [ch]) = ⟨v, c⟩ := by
  have htakelen : (List.take c.toNat v).length = c.toNat := by
    simp [List.length_take]
    omega
  simp only [insert, insertBetween, List.length_singleton, Nat.cast_one]
  rw [if_neg (by omega : ¬(c = -1))]
  have hch : charAtN (List.take c.toNat v ++ ([ch] ++ List.drop c.toNat v))
      c.toNat = some ch := by
    rw [charAtN, List.getElem?_append_right (le_of_eq htakelen), htakelen]
    simp
  have hprev : charAt (List.take c.toNat v ++ [ch] ++ List.drop c.toNat v)
      (c + 1 - 1) = some ch := by
    rw [charAt, if_neg (by omega)]
    rw [show (c + 1 - 1).toNat = c.toNat by omega]
    rw [List.append_assoc]
    exact hch
  rw [erase]
  rw [if_neg (show ¬(charAt (List.take c.toNat v ++ [ch] ++ List.drop c.toNat v)
      (c + 1 - 1) = some '{' ∨
      charAt (List.take c.toNat v ++ [ch] ++ List.drop c.toNat v)
      (c + 1 - 1) = some '}') by rw [hprev]; simp [h3, h4])]
  have hbefore : jsSliceEnd (List.take c.toNat v ++ [ch] ++ List.drop c.toNat v)
      (c + 1 - 1) = List.take c.toNat v := by
    rw [jsSliceEnd, if_neg (by omega)]
    rw [show (c + 1 - 1).toNat = c.toNat by omega]
    rw [List.append_assoc]
    exact List.take_left' htakelen
  have hafter : jsSliceFrom (List.take c.toNat v ++ [ch] ++ List.drop c.toNat v)
      (c + 1) = List.drop c.toNat v := by
    rw [jsSliceFrom, if_neg (by omega)]
    rw [show (c + 1).toNat = c.toNat + 1 by omega]
    exact List.drop_left' (by simp [htakelen])
  rw [hbefore, hafter, List.take_append_drop]
  simp only [EditorState.mk.injEq, htakelen]
  refine ⟨trivial, by omega⟩

/-- C7, witness: inserting `'q'` at cursor `1` of buffer `"xy"` and erasing
restores buffer `"xy"` with cursor `1`. -/
theorem C7_witness : erase (insert ⟨['x', 'y'], 1⟩ ['q']) = ⟨['x', 'y'], 1⟩ :=
  C7_theorem ['x', 'y'] 1 'q' (by decide) (by decide) (by decide) (by decide)

/-! ### Claim C8 -/

/-- C8: whenever a rightward move by one would land the cursor on an opening
brace — `rightLanding` being the landing position after the command-name skip
of the rightward branch — the resulting cursor is advanced one further
position, so it is never left sitting exactly on the `'{'`. This covers in
particular every `'{'` opening a command block of a buffer containing
`"\name{"`. -/
theorem C8_theorem (v : List Char) (c b : Int)
    (hl : rightLanding v c (c + 1) = b) (hb : charAt v b = some '{') :
    updateCursor v c 1 = b + 1 := by
  simp only [updateCursor]
  rw [if_neg (by omega : ¬((1 : Int) < 0)), if_pos (by omega : (1 : Int) > 0)]
  rw [hl, if_pos hb]

/-- C8, witness: in buffer `"\a{}"` a rightward move from cursor `1` lands on
the command-opening brace at index `2` and is advanced to `3`. -/
theorem C8_witness : updateCursor ['\\', 'a', '{', '}'] 1 1 = 3 := by
  have h := C8_theorem ['\\', 'a', '{', '}'] 1 2 (by decide) (by decide)
  omega

/-! ### Claim C9 -/

/-- C9: an input event whose key code is none of left-arrow (37), right-arrow
(39), or backspace (8) and that carries no typed character leaves the state
(buffer and cursor) unchanged; the code only emits a console diagnostic. -/
theorem C9_theorem (which : Option Int) (st : EditorState)
    (hL : which ≠ some KEY_LEFT) (hR : which ≠ some KEY_RIGHT)
    (hB : which ≠ some KEY_BACKSPACE) :
    handleInput which none st = st := by
  cases which with
  | none => exact handleInput_noop st
  | some w =>
    exact handleInput_unrecognized w st (fun h => hL (by rw [h]))
      (fun h => hR (by rw [h])) (fun h => hB (by rw [h]))

/-- C9, witness: key code 65 with no typed character leaves the state
unchanged. -/
theorem C9_witness : handleInput (some 65) none ⟨['a'], 1⟩ = ⟨['a'], 1⟩ :=
  C9_theorem (some 65) ⟨['a'], 1⟩ (by decide) (by decide) (by decide)

/-! ### Claim C10 -/

/-- C10: a leftward move by one that lands on a `'{'` with no backslash
anywhere before it sets the cursor to the sentinel `-1` (the backward scan
runs past index 0), not to a clamped `0`. -/
theorem C10_theorem (v : List Char) (c : Int) (_h1 : 1 ≤ c)
    (hb : charAt v (c - 1) = some '{')
    (hn : ∀ j, j < (c - 1).toNat → charAtN v j ≠ some '\\') :
    updateCursor v c (-1) = -1 := by
  simp only [updateCursor]
  rw [if_pos (by omega : (-1 : Int) < 0)]
  rw [show c + -1 = c - 1 by omega]
  rw [if_pos hb]
  rw [bsSearchLT_eq_none v _ hn]

/-- C10, witness: on buffer `"a{"` (no backslash), a leftward move from
cursor `2` lands on the brace at index `1` and the cursor becomes `-1`. -/
theorem C10_witness : updateCursor ['a', '{'] 2 (-1) = -1 :=
  C10_theorem ['a', '{'] 2 (by decide) (by decide) (by decide)

end MathjaxEditor
